import Mathlib

/-!
Shallow embedding of the F1 data-integration layer (`f1_data.py`) of the
F1_WEB_APP repository, together with proofs about the claims on its
specification.  Times are modelled as rationals (seconds), machine floats
as exact rationals, Python dicts as functions to `Option`.
-/

namespace F1Data

/-! ### Cache (`f1_data.py` lines 88-112)

The module-level dict `_cache : str -> {"data": value, "time": float}` is
modelled as a function `String → Option (CacheEntry α)`; `time.time()` is
passed in explicitly as a rational `now`. -/

structure CacheEntry (α : Type) where
  data : α
  time : ℚ
deriving DecidableEq

def Cache (α : Type) : Type := String → Option (CacheEntry α)

def cacheEmpty {α : Type} : Cache α := fun _ => none

/-- Embedding of the `CACHE_TTL` dict from `config.py` (lines 25-53).  The
Python source literally repeats the key `"live_track_map"` (first 5, then 2);
a Python dict literal keeps the last binding, so the embedded table holds a
single entry with value 2. -/
def CACHE_TTL : List (String × ℤ) :=
  [("live_positions", 10), ("live_timing", 10), ("live_weather", 60),
   ("live_race_control", 10), ("live_radio", 15), ("live_pit_stops", 10),
   ("live_tyres", 15), ("live_session", 30), ("schedule", 3600),
   ("standings_drivers", 900), ("standings_constructors", 900),
   ("race_results", 3600), ("drivers_list", 86400), ("teams_list", 86400),
   ("next_race", 1800), ("leaderboard", 300), ("news", 900),
   ("streams", 1800), ("tyre_degradation", 30), ("live_track_map", 2),
   ("track_outline", 3600), ("demo_sessions", 3600),
   ("radio_transcript", 86400), ("telemetry_comparison", 300),
   ("strategy_prediction", 600), ("weather_radar", 120)]

/-- Characters before the first colon. -/
def takeUntilColon : List Char → List Char
  | [] => []
  | c :: r => if c = ':' then [] else c :: takeUntilColon r

/-- Embedding of `key.split(":")[0]`: the part of the key before the first
colon (the whole key when it has no colon). -/
def categoryOf (k : String) : String := String.mk (takeUntilColon k.data)

/-- Embedding of Python `key.startswith(s)`. -/
def strStartsWith (k s : String) : Bool := s.data.isPrefixOf k.data

/-- Embedding of `CACHE_TTL.get(key.split(":")[0], 300)`. -/
def defaultTTL (k : String) : ℤ := (CACHE_TTL.lookup (categoryOf k)).getD 300

/-- Embedding of the Python expression
`ttl_override or CACHE_TTL.get(key.split(":")[0], 300)` in `cache_get`
(line 95).  Python `or` tests truthiness, so both `None` and `0` select the
category default. -/
def resolveTTL (o : Option ℤ) (k : String) : ℤ :=
  match o with
  | none => defaultTTL k
  | some t => if t = 0 then defaultTTL k else t

/-- Embedding of `cache_get` (`f1_data.py` lines 91-98). -/
def cache_get {α : Type} (c : Cache α) (k : String) (o : Option ℤ)
    (now : ℚ) : Option α :=
  match c k with
  | none => none
  | some e => if now - e.time < (resolveTTL o k : ℚ) then some e.data else none

/-- Embedding of `cache_set` (`f1_data.py` lines 101-103). -/
def cache_set {α : Type} (c : Cache α) (k : String) (v : α) (now : ℚ) :
    Cache α :=
  fun k' => if k' = k then some ⟨v, now⟩ else c k'

/-- Embedding of `cache_clear` (`f1_data.py` lines 106-112).  Python tests
`if prefix:`, so both `None` and the empty string clear the whole dict;
otherwise the comprehension keeps exactly the keys that do not start with
the given string. -/
def cache_clear {α : Type} (c : Cache α) (o : Option String) : Cache α :=
  match o with
  | none => fun _ => none
  | some s =>
      if s = "" then fun _ => none
      else fun k => if strStartsWith k s then none else c k

/-! ### Rate limiter (`f1_data.py` lines 57-78)

`RateLimiter.acquire` runs under a lock, so the calls of any interleaving
are serialized; a run is a fold of the pure state transformer over the
sequence of `time.monotonic()` readings observed by the successive calls.
The `asyncio.sleep(wait)` has no effect on the stored fields and is
therefore not part of the state. -/

structure RateLimiter where
  rate : ℚ
  burst : ℚ
  tokens : ℚ
  last_refill : ℚ
deriving DecidableEq

/-- Embedding of `RateLimiter.acquire` (lines 66-78): refill
`tokens := min(burst, tokens + elapsed * rate)`, stamp `last_refill := now`,
then either sleep and zero the bucket (fewer than 1 token) or consume one
token. -/
def RateLimiter.acquire (s : RateLimiter) (now : ℚ) : RateLimiter :=
  let t := min s.burst (s.tokens + (now - s.last_refill) * s.rate)
  if t < 1 then
    { s with tokens := 0, last_refill := now }
  else
    { s with tokens := t - 1, last_refill := now }

/-- A serialized sequence of `acquire` calls at the given monotonic-clock
readings. -/
def RateLimiter.run (s : RateLimiter) (ts : List ℚ) : RateLimiter :=
  ts.foldl RateLimiter.acquire s

/-! ### Retrying fetchers (`f1_data.py` lines 260-337)

The network is modelled as a function from the attempt index to the outcome
of the HTTP request issued on that attempt.  The loop body of
`fetch_openf1` / `fetch_ergast` is embedded as a recursion over the list of
attempt indices `range(retries + 1)`; alongside the returned value the
embedding records the `asyncio.sleep` durations (and, for Ergast, the
rate-limiter `acquire()` calls) in program order. -/

inductive FetchOutcome where
  | ok (v : ℕ)
  | tooMany
  | httpErr (code : ℕ)
  | netErr
deriving DecidableEq

/-- Event trace entry for the Ergast fetcher: a cooperative sleep of the
given duration, or an `_ergast_limiter.acquire()` call. -/
inductive ErgEvent where
  | slept (w : ℚ)
  | tokenAcquired
deriving DecidableEq

/-- Loop of `fetch_openf1` (lines 274-296) over the remaining attempt
indices.  A 200 returns the body at once; a 429 sleeps
`min(retry_delay * 2 ** attempt, 10)` and retries (even on the final
attempt the sleep happens, then the loop ends); another status sleeps the
flat `retry_delay` when attempts remain and otherwise returns `None`
immediately; a network error sleeps `retry_delay * (attempt + 1)` when
attempts remain and always continues. -/
def openf1Loop (out : ℕ → FetchOutcome) (d : ℚ) (retries : ℕ) :
    List ℕ → Option ℕ × List ℚ
  | [] => (none, [])
  | a :: rest =>
    match out a with
    | .ok v => (some v, [])
    | .tooMany =>
        let r := openf1Loop out d retries rest
        (r.1, min (d * 2 ^ a) 10 :: r.2)
    | .httpErr _ =>
        if a < retries then
          let r := openf1Loop out d retries rest
          (r.1, d :: r.2)
        else (none, [])
    | .netErr =>
        if a < retries then
          let r := openf1Loop out d retries rest
          (r.1, d * (a + 1) :: r.2)
        else
          openf1Loop out d retries rest

/-- Embedding of `fetch_openf1` (lines 260-298): result and sleep trace. -/
def fetch_openf1 (out : ℕ → FetchOutcome) (d : ℚ) (retries : ℕ) :
    Option ℕ × List ℚ :=
  openf1Loop out d retries (List.range (retries + 1))

/-- Loop of `fetch_ergast` (lines 314-335); identical control flow to
`openf1Loop`, except that after the 429 sleep the limiter token is
re-acquired before retrying. -/
def ergastLoop (out : ℕ → FetchOutcome) (d : ℚ) (retries : ℕ) :
    List ℕ → Option ℕ × List ErgEvent
  | [] => (none, [])
  | a :: rest =>
    match out a with
    | .ok v => (some v, [])
    | .tooMany =>
        let r := ergastLoop out d retries rest
        (r.1, .slept (min (d * 2 ^ a) 10) :: .tokenAcquired :: r.2)
    | .httpErr _ =>
        if a < retries then
          let r := ergastLoop out d retries rest
          (r.1, .slept d :: r.2)
        else (none, [])
    | .netErr =>
        if a < retries then
          let r := ergastLoop out d retries rest
          (r.1, .slept (d * (a + 1)) :: r.2)
        else
          ergastLoop out d retries rest

/-- Embedding of `fetch_ergast` (lines 301-337): an initial
`_ergast_limiter.acquire()` (line 310), then the retry loop. -/
def fetch_ergast (out : ℕ → FetchOutcome) (d : ℚ) (retries : ℕ) :
    Option ℕ × List ErgEvent :=
  let r := ergastLoop out d retries (List.range (retries + 1))
  (r.1, ErgEvent.tokenAcquired :: r.2)

/-! ### Latest-record merge (`f1_data.py` lines 994-1001 and 1109-1115)

Raw upstream records carry an optional driver number and an optional
ISO-8601 date string; `entry.get("date", "")` is `dateOf`.  The Python
dicts `latest_pos` / `latest_intervals` are modelled as functions
`ℕ → Option PosRec` built by folding the loop body over the fetched
list. -/

structure PosRec where
  driver_number : Option ℕ
  date : Option String
  payload : ℕ
deriving DecidableEq

def dateOf (e : PosRec) : String := e.date.getD ""

/-- Loop body of the `latest_pos` accumulation (lines 996-1001): skip
records without a driver number; a record replaces the stored one exactly
when none is stored yet or its date string is lexicographically greater. -/
def posStep (m : ℕ → Option PosRec) (e : PosRec) : ℕ → Option PosRec :=
  match e.driver_number with
  | none => m
  | some dn =>
    match m dn with
    | none => fun x => if x = dn then some e else m x
    | some cur =>
        if dateOf cur < dateOf e then fun x => if x = dn then some e else m x
        else m

/-- Embedding of the `latest_pos` dict built by `get_live_positions`
(lines 995-1001). -/
def latest_pos (l : List PosRec) : ℕ → Option PosRec :=
  l.foldl posStep (fun _ => none)

/-- Loop body of the `latest_intervals` accumulation in `get_live_timing`
(lines 1112-1115).  The guard is `if dn and (...)`, so a driver number of
`0` (falsy) is skipped as well. -/
def intervalStep (m : ℕ → Option PosRec) (e : PosRec) : ℕ → Option PosRec :=
  match e.driver_number with
  | none => m
  | some dn =>
    if dn = 0 then m
    else
      match m dn with
      | none => fun x => if x = dn then some e else m x
      | some cur =>
          if dateOf cur < dateOf e then fun x => if x = dn then some e else m x
          else m

/-- Embedding of the `latest_intervals` dict built by `get_live_timing`
(lines 1110-1115). -/
def latest_intervals (l : List PosRec) : ℕ → Option PosRec :=
  l.foldl intervalStep (fun _ => none)

/-- The sublist of records belonging to one driver number. -/
def recordsOf (dn : ℕ) (l : List PosRec) : List PosRec :=
  l.filter (fun e => e.driver_number = some dn)

/-- Per-driver effect of one loop iteration: keep the record with the
strictly greater date string (the stored record wins ties). -/
def oneStep (acc : Option PosRec) (e : PosRec) : Option PosRec :=
  match acc with
  | none => some e
  | some c => if dateOf c < dateOf e then some e else some c

/-- Reference reduction of one driver's records, mirroring the per-driver
effect of `posStep`. -/
def latestOne (l : List PosRec) : Option PosRec :=
  l.foldl oneStep none

/-! ### Dashboard cross-enrichment (`f1_data.py` lines 1477-1486)

Position records are modelled with the fields the enrichment touches:
`driver_number`, `tyre_age`, the helper key `_stint_lap_start` (named
`stint_lap_start` here) and the `current_lap` key the loop may add.
Timing records carry `driver_number` and an optional `lap_number`
(`t.get("lap_number")`, where a missing key gives `None` and `0` is falsy
in the guard). -/

structure DashPos where
  driver_number : ℕ
  tyre_age : ℤ
  stint_lap_start : ℤ
  current_lap : Option ℤ
deriving DecidableEq

structure DashTim where
  driver_number : ℕ
  lap_number : Option ℤ
deriving DecidableEq

/-- Embedding of the dict comprehension
`timing_by_dn = {t["driver_number"]: t for t in timing["timing"]}`
(line 1479): the last record for a driver number wins. -/
def timing_by_dn (ts : List DashTim) : ℕ → Option DashTim :=
  ts.foldl (fun m t => fun x => if x = t.driver_number then some t else m x)
    (fun _ => none)

/-- Loop body of the cross-enrichment (lines 1480-1486) for one position
record: when a timing record exists for the driver and reports a truthy
`lap_number`, recompute a zero `tyre_age` of a record with a truthy stint
start as `max(0, lap_number - stint_start)` and set `current_lap`. -/
def dashStep (m : ℕ → Option DashTim) (p : DashPos) : DashPos :=
  match m p.driver_number with
  | none => p
  | some t =>
    match t.lap_number with
    | none => p
    | some ln =>
      if ln = 0 then p
      else
        let p1 :=
          if p.stint_lap_start ≠ 0 ∧ p.tyre_age = 0 then
            { p with tyre_age := max 0 (ln - p.stint_lap_start) }
          else p
        { p1 with current_lap := some ln }

/-- Embedding of the cross-enrichment pass of `get_live_dashboard`
(lines 1477-1486); the surrounding guard is
`if positions.get("positions") and timing.get("timing")`. -/
def crossEnrich (ps : List DashPos) (ts : List DashTim) : List DashPos :=
  if ps = [] ∨ ts = [] then ps else ps.map (dashStep (timing_by_dn ts))

/-- Embedding of the tyre-age computation of `get_live_positions`
(lines 1031-1038): a truthy `lap_start` together with a truthy `lap_end`
gives `lap_end - lap_start`; a still-open stint (no `lap_end`) is left at
`0`. -/
def stintTyreAge (lap_start : ℤ) (lap_end : Option ℤ) : ℤ :=
  if lap_start ≠ 0 then
    match lap_end with
    | some e => if e ≠ 0 then e - lap_start else 0
    | none => 0
  else 0

/-! ### Session resolver (`f1_data.py` lines 128-238)

Upstream session records and the info dicts the resolver builds share one
shape.  The ISO-8601 strings `date_start` / `date_end` are carried as
already-parsed timestamps in seconds (`Option ℚ`): the code first tests the
strings for truthiness and then parses them inside `try/except`, so a
missing, empty or unparseable date and `none` coincide; `datetime.utcnow()`
is the explicit argument `now`.  The two `fetch_openf1("sessions", ...)`
calls are modelled by a function from the `session_key` request parameter
to the (munged, flat) response list, `none` meaning a failed fetch. -/

structure SessionR where
  session_key : Option ℤ
  session_name : String
  session_type : String
  meeting_name : String
  circuit_short_name : String
  date_start : Option ℚ
  date_end : Option ℚ
deriving DecidableEq

/-- Values stored by the resolver in the module cache: a `_fallback_resolved`
record or a `demo_info:*` record.  The two key families are disjoint, so a
lookup under one family never sees the other constructor. -/
inductive ResolverVal where
  | resolved (key : String) (is_demo : Bool) (info : Option SessionR)
  | infoVal (i : SessionR)
deriving DecidableEq

/-- State touched by the resolver: the `_demo_override_key` global and the
module cache. -/
structure ResolverState where
  ov : Option String
  cache : Cache ResolverVal

/-- Hardcoded last-known race of `SEASON_2025_RESULTS` (round 24 is the
maximal key of the `config.py` table): session key 9839, Abu Dhabi. -/
def lastKnownKey : ℤ := 9839

def lastKnownName : String := "Гран-при Абу-Даби"

/-- Info dict built by the absolute-fallback branches (lines 182-183 and
225); the calendar-date string of round 24 lies outside the numeric time
model and is dropped to `none`. -/
def lastKnownInfo : SessionR :=
  { session_key := some lastKnownKey, session_name := "Race",
    session_type := "", meeting_name := lastKnownName,
    circuit_short_name := "", date_start := none, date_end := none }

/-- Info dict built from a fetched session in the override branch
(lines 154-162): each field via `s.get(...)`, the session key defaulting to
`int(override)` when the record lacks one (an unparseable override keeps
the raw string in Python; the model keeps `none`). -/
def mkOverrideInfo (s : SessionR) (k : String) : SessionR :=
  { session_key := match s.session_key with
      | some x => some x
      | none => k.toInt?,
    session_name := s.session_name, session_type := s.session_type,
    meeting_name := s.meeting_name,
    circuit_short_name := s.circuit_short_name,
    date_start := s.date_start, date_end := s.date_end }

/-- Info dict of the override branch when the sessions fetch fails
(line 168). -/
def mkOverrideFallbackInfo (k : String) : SessionR :=
  { session_key := k.toInt?, session_name := "", session_type := "",
    meeting_name := "Session " ++ k, circuit_short_name := "",
    date_start := none, date_end := none }

/-- Branch 1 of `get_fallback_session_key` (lines 142-170): a truthy
operator override. -/
def resolveOverride (st : ResolverState) (now : ℚ)
    (fetchSessions : String → Option (List SessionR)) (k : String) :
    (String × Bool × Option SessionR) × Cache ResolverVal :=
  match cache_get st.cache ("demo_info:" ++ k) (some 3600) now with
  | some (.infoVal i) => ((k, true, some i), st.cache)
  | _ =>
    let i : SessionR :=
      match fetchSessions k with
      | some ss =>
        match ss.getLast? with
        | some s => mkOverrideInfo s k
        | none => mkOverrideFallbackInfo k
      | none => mkOverrideFallbackInfo k
    ((k, true, some i),
      cache_set st.cache ("demo_info:" ++ k) (.infoVal i) now)

/-- Info dict of the auto-fallback demo branch (lines 210-218). -/
def mkAutoInfo (s : SessionR) : SessionR :=
  { session_key := s.session_key, session_name := s.session_name,
    session_type := s.session_type, meeting_name := s.meeting_name,
    circuit_short_name := s.circuit_short_name,
    date_start := s.date_start, date_end := s.date_end }

/-- Branches 2-4 of `get_fallback_session_key` (lines 172-227): cached
resolution, live-window test against `now` with the 30-minute
(1800-second) grace period, demo fallback to the fetched session's own
key, and the absolute hardcoded fallback. -/
def resolveAuto (st : ResolverState) (now : ℚ)
    (fetchSessions : String → Option (List SessionR)) :
    (String × Bool × Option SessionR) × Cache ResolverVal :=
  match cache_get st.cache "_fallback_resolved" (some 60) now with
  | some (.resolved key demo info) => ((key, demo, info), st.cache)
  | _ =>
    match (fetchSessions "latest").getD [] |>.getLast? with
    | none =>
        let sk := toString lastKnownKey
        ((sk, true, some lastKnownInfo),
          cache_set st.cache "_fallback_resolved"
            (.resolved sk true (some lastKnownInfo)) now)
    | some s =>
        let is_live : Bool :=
          match s.date_start, s.date_end with
          | some st0, some en => decide (st0 ≤ now ∧ now ≤ en + 1800)
          | _, _ => false
        if is_live then
          (("latest", false, none),
            cache_set st.cache "_fallback_resolved"
              (.resolved "latest" false none) now)
        else
          match s.session_key with
          | some sk =>
            if sk ≠ 0 then
              let i := mkAutoInfo s
              ((toString sk, true, some i),
                cache_set st.cache "_fallback_resolved"
                  (.resolved (toString sk) true (some i)) now)
            else
              let sk0 := toString lastKnownKey
              ((sk0, true, some lastKnownInfo),
                cache_set st.cache "_fallback_resolved"
                  (.resolved sk0 true (some lastKnownInfo)) now)
          | none =>
              let sk0 := toString lastKnownKey
              ((sk0, true, some lastKnownInfo),
                cache_set st.cache "_fallback_resolved"
                  (.resolved sk0 true (some lastKnownInfo)) now)

/-- Embedding of `get_fallback_session_key` (lines 131-227); the
`_demo_override_key` guard is a Python truthiness test, so an empty-string
override behaves like no override. -/
def get_fallback_session_key (st : ResolverState) (now : ℚ)
    (fetchSessions : String → Option (List SessionR)) :
    (String × Bool × Option SessionR) × Cache ResolverVal :=
  match st.ov with
  | some k => if k = "" then resolveAuto st now fetchSessions
              else resolveOverride st now fetchSessions k
  | none => resolveAuto st now fetchSessions

/-- Embedding of `set_demo_session` (lines 230-238): normalize the sentinel
values to `None`, store the override, and clear the `_fallback` and
`live_` cache prefixes. -/
def set_demo_session (k : Option String) (st : ResolverState) :
    ResolverState :=
  let k' : Option String :=
    match k with
    | none => none
    | some s =>
        if s ≠ "" ∧ s.toLower ∈ ["auto", "clear", "none", ""] then none
        else some s
  { ov := k',
    cache := cache_clear (cache_clear st.cache (some "_fallback"))
      (some "live_") }

/-! ### Tyre degradation (`f1_data.py` lines 1762-1904)

Lap times are exact rationals.  Python `round(x, 3)` / `round(x, 4)` round
to the nearest multiple of `10^-3` / `10^-4` with ties to even (banker's
rounding), embedded as `round3` / `round4` over `ℚ`. -/

/-- Round to the nearest integer, ties to the even integer. -/
def rne (q : ℚ) : ℤ :=
  let f := ⌊q⌋
  let r := q - (f : ℚ)
  if r < 1 / 2 then f
  else if 1 / 2 < r then f + 1
  else if f % 2 = 0 then f else f + 1

/-- Embedding of Python `round(x, 3)`. -/
def round3 (q : ℚ) : ℚ := (rne (q * 1000) : ℚ) / 1000

/-- Embedding of Python `round(x, 4)`. -/
def round4 (q : ℚ) : ℚ := (rne (q * 10000) : ℚ) / 10000

/-- One element of `driver_laps[dn]` (lines 1808-1812): lap number, lap
duration and the pit-out flag. -/
structure LapRec where
  lap : ℤ
  time : ℚ
  is_pit_out : Bool
deriving DecidableEq

/-- One element of `driver_stints[dn]` (lines 1790-1795); `lap_start`
defaults to `0` when absent, `lap_end` stays `None` for an open stint. -/
structure StintR where
  compound : String
  lap_start : ℤ
  lap_end : Option ℤ
  stint_number : ℤ
deriving DecidableEq

/-- One element of `lap_data` (lines 1866-1870). -/
structure DegLap where
  lap : ℤ
  raw_time : ℚ
  corrected_time : ℚ
deriving DecidableEq

/-- One point of the two-point `trend_line` (lines 1883-1886). -/
structure TrendPt where
  lap : ℤ
  time : ℚ
deriving DecidableEq

/-- One element of `stint_results` (lines 1888-1894). -/
structure StintResult where
  compound : String
  stint_number : ℤ
  deg_rate : Option ℚ
  laps : List DegLap
  trend_line : List TrendPt
deriving DecidableEq

/-- Embedding of the nested `_linear_regression` helper (lines 1814-1828). -/
def _linear_regression (points : List (ℚ × ℚ)) : Option (ℚ × ℚ) :=
  let n := points.length
  if n < 3 then none
  else
    let sum_x := (points.map Prod.fst).sum
    let sum_y := (points.map Prod.snd).sum
    let sum_xy := (points.map (fun p => p.1 * p.2)).sum
    let sum_x2 := (points.map (fun p => p.1 ^ 2)).sum
    let denom := (n : ℚ) * sum_x2 - sum_x ^ 2
    if denom = 0 then none
    else
      let slope := ((n : ℚ) * sum_xy - sum_x * sum_y) / denom
      some (slope, (sum_y - slope * sum_x) / (n : ℚ))

/-- Textbook ordinary-least-squares slope in centered form,
`Σ (x - x̄)(y - ȳ) / Σ (x - x̄)²`; stated from the specification's words
("fit ordinary least squares on (lap, correctedTime) pairs") for
comparison with `_linear_regression`. -/
def olsSlope (points : List (ℚ × ℚ)) : ℚ :=
  let n : ℚ := points.length
  let xbar := (points.map Prod.fst).sum / n
  let ybar := (points.map Prod.snd).sum / n
  ((points.map (fun p => (p.1 - xbar) * (p.2 - ybar))).sum) /
    ((points.map (fun p => (p.1 - xbar) ^ 2)).sum)

/-- Laps lying inside the stint window (lines 1840-1844);
`stint["lap_start"] or 1` and `stint["lap_end"] or total_laps` are Python
truthiness defaults. -/
def stintLapsOf (total_laps : ℤ) (laps : List LapRec) (stint : StintR) :
    List LapRec :=
  let ls := if stint.lap_start = 0 then 1 else stint.lap_start
  let le := match stint.lap_end with
    | some e => if e = 0 then total_laps else e
    | none => total_laps
  laps.filter (fun l => decide (ls ≤ l.lap ∧ l.lap ≤ le))

/-- Pit-out laps removed (line 1849). -/
def cleanLapsOf (total_laps : ℤ) (laps : List LapRec) (stint : StintR) :
    List LapRec :=
  (stintLapsOf total_laps laps stint).filter (fun l => !l.is_pit_out)

/-- Embedding of lines 1854-1855: `sorted(...)[len(...) // 2]`. -/
def medianOf (clean : List LapRec) : ℚ :=
  let times := (clean.map LapRec.time).mergeSort (fun a b => decide (a ≤ b))
  times.getD (times.length / 2) 0

/-- Outlier filter with fallback (lines 1857-1860): keep laps at most 110%
of the median, reverting to the unfiltered clean set when fewer than 2
survive. -/
def filteredOf (clean : List LapRec) : List LapRec :=
  let m := medianOf clean
  let f := clean.filter (fun l => decide (l.time ≤ m * (11 / 10)))
  if f.length < 2 then clean else f

/-- Fuel correction of one kept lap (lines 1864-1870):
`corrected = time - 0.03 * (total_laps - lap)`, both times displayed
rounded to 3 decimals. -/
def mkDegLap (total_laps : ℤ) (l : LapRec) : DegLap :=
  { lap := l.lap, raw_time := round3 l.time,
    corrected_time :=
      round3 (l.time - 3 / 100 * ((total_laps : ℚ) - (l.lap : ℚ))) }

/-- Embedding of one iteration of the per-stint loop of
`get_live_tyre_degradation` (lines 1839-1894); `none` models `continue`
(stint dropped from `stint_results`). -/
def processStint (total_laps : ℤ) (laps : List LapRec) (stint : StintR) :
    Option StintResult :=
  let sl := stintLapsOf total_laps laps stint
  if sl = [] then none
  else
    let clean := sl.filter (fun l => !l.is_pit_out)
    if clean.length < 2 then none
    else
      let lap_data := (filteredOf clean).map (mkDegLap total_laps)
      let points := lap_data.map (fun d => ((d.lap : ℚ), d.corrected_time))
      match _linear_regression points with
      | none =>
          some { compound := stint.compound,
                 stint_number := stint.stint_number,
                 deg_rate := none, laps := lap_data, trend_line := [] }
      | some (slope, intercept) =>
          let first_lap := (lap_data.headD ⟨0, 0, 0⟩).lap
          let last_lap := (lap_data.getLastD ⟨0, 0, 0⟩).lap
          some { compound := stint.compound,
                 stint_number := stint.stint_number,
                 deg_rate := some (round4 slope), laps := lap_data,
                 trend_line :=
                   [⟨first_lap, round3 (slope * first_lap + intercept)⟩,
                    ⟨last_lap, round3 (slope * last_lap + intercept)⟩] }

/-! ### Track outline (`f1_data.py` lines 1909-1993)

State: the in-memory cache entry under `track_outline:<session>` and the
per-session disk file.  Per call, the upstream responses and the success of
the disk write (`try/except IOError`, line 1984-1990) are inputs.  The
returned `Bool` records whether the fine-grained
`fetch_openf1("location", ...)` query of line 1963 was issued. -/

structure TPt where
  x : ℚ
  y : ℚ
deriving DecidableEq

structure TLapRec where
  driver_number : ℕ
  lap_number : ℤ
  date_start : Option String
  lap_duration : Option ℚ
deriving DecidableEq

structure LocRec where
  x : Option ℚ
  y : Option ℚ
deriving DecidableEq

structure TOFetch where
  laps1 : Option (List TLapRec)
  laps44 : Option (List TLapRec)
  location : Option (List LocRec)
  diskOk : Bool

structure TOState where
  mem : Cache (List TPt)
  disk : Option (List TPt)

/-- Truthiness of `lap.get("date_start")`: present and non-empty. -/
def dateStartTruthy (o : Option String) : Bool := o.getD "" ≠ ""

/-- Truthiness of `lap.get("lap_duration")`: present and non-zero. -/
def durTruthy (o : Option ℚ) : Bool := o.getD 0 ≠ 0

/-- Target-lap selection (lines 1946-1958): first lap with a start date,
lap number above 2 and a duration; else the first lap with a start date. -/
def findTargetLap (laps : List TLapRec) : Option TLapRec :=
  match laps.find? (fun l =>
      dateStartTruthy l.date_start && decide (2 < l.lap_number) &&
        durTruthy l.lap_duration) with
  | some l => some l
  | none => laps.find? (fun l => dateStartTruthy l.date_start)

/-- Downsampling (lines 1971-1978): first 500 samples, fixed stride toward
roughly 250 points, keeping samples with both coordinates present. -/
def downsample (location : List LocRec) : List TPt :=
  let raw := location.take 500
  let stride := max 1 (raw.length / 250)
  (raw.enum.filter (fun ip =>
      decide (ip.1 % stride = 0) && ip.2.x.isSome && ip.2.y.isSome)).map
    (fun ip => ⟨ip.2.x.getD 0, ip.2.y.getD 0⟩)

/-- The laps list after the driver-1 / driver-44 fallback chain
(lines 1934-1942); `if not laps:` treats a failed fetch and an empty list
alike. -/
def chooseLaps (f : TOFetch) : List TLapRec :=
  if f.laps1.getD [] = [] then f.laps44.getD [] else f.laps1.getD []

/-- Embedding of one `_get_track_outline` call (lines 1912-1993).
Returns (result, whether the location query was issued, new state). -/
def trackOutlineCall (st : TOState) (skey : String) (now : ℚ)
    (f : TOFetch) : Option (List TPt) × Bool × TOState :=
  let ck := "track_outline:" ++ skey
  match cache_get st.mem ck (some 86400) now with
  | some pts => (some pts, false, st)
  | none =>
    let diskHit : Option (List TPt) :=
      match st.disk with
      | some pts => if pts ≠ [] ∧ 20 ≤ pts.length then some pts else none
      | none => none
    match diskHit with
    | some pts =>
        (some pts, false, { st with mem := cache_set st.mem ck pts now })
    | none =>
        if chooseLaps f = [] then (none, false, st)
        else
          match findTargetLap (chooseLaps f) with
          | none => (none, false, st)
          | some _ =>
            match f.location with
            | none => (none, true, st)
            | some loc =>
              if loc = [] then (none, true, st)
              else
                let pts := downsample loc
                if pts.length < 20 then (none, true, st)
                else
                  (some pts, true,
                    { mem := cache_set st.mem ck pts now,
                      disk := if f.diskOk then some pts else st.disk })

/-- A sequence of `_get_track_outline` calls for one session id, counting
how many issued the location query. -/
def runTrackCalls (st : TOState) (skey : String)
    (calls : List (ℚ × TOFetch)) : ℕ × TOState :=
  calls.foldl
    (fun acc c =>
      let r := trackOutlineCall acc.2 skey c.1 c.2
      (acc.1 + (if r.2.1 then 1 else 0), r.2.2))
    (0, st)

/-! ## Theorems -/

/-- TTL of the cache read as claim C3 words it: "the caller's override if
given and otherwise the TTL of k's category".  Stated from the claim's
words for comparison with the code's `resolveTTL`. -/
def claimTTL (o : Option ℤ) (k : String) : ℤ :=
  match o with
  | some t => t
  | none => defaultTTL k

/-- C10: `cache_get` treats a `ttl_override` of `0` exactly like no
override at all — the truthiness `or` makes a zero override select the
category default TTL, so the override cannot force an always-expired
read. -/
theorem cache_get_zero_override_eq_none {α : Type} (c : Cache α)
    (k : String) (now : ℚ) :
    cache_get c k (some 0) now = cache_get c k none now := by
  simp [cache_get, resolveTTL]

/-- C9: `cache_clear` with a string argument removes exactly the entries
whose key starts with that string and leaves every other key's entry
(value and timestamp alike) untouched; `cache_clear` with no argument
removes everything. -/
theorem cache_clear_spec {α : Type} (c : Cache α) (s k : String) :
    cache_clear c (some s) k = (if strStartsWith k s then none else c k) ∧
    cache_clear c none k = none := by
  constructor
  · unfold cache_clear
    by_cases hs : s = ""
    · subst hs
      simp [strStartsWith, List.isPrefixOf]
    · simp [hs]
  · rfl

/-- C3 (amended): after `cache_set k v` at `t_set`, a `cache_get k` strictly
before `t_set + ttl` returns `v` and at or after `t_set + ttl` returns
nothing, where `ttl` is the caller's override when given and non-zero and
otherwise the TTL of `k`'s category (a zero override falls back to the
category TTL). -/
theorem cache_set_get_ttl {α : Type} (c : Cache α) (k : String) (v : α)
    (o : Option ℤ) (t_set t_get : ℚ) :
    (t_get - t_set < (resolveTTL o k : ℚ) →
      cache_get (cache_set c k v t_set) k o t_get = some v) ∧
    ((resolveTTL o k : ℚ) ≤ t_get - t_set →
      cache_get (cache_set c k v t_set) k o t_get = none) := by
  constructor
  · intro h
    simp [cache_get, cache_set, h]
  · intro h
    simp [cache_get, cache_set, not_lt.mpr h]

/-- C3 counterexample: with the override `0` "given", the claim's TTL is
`0`, so a read 100 seconds after the store lies at or after
`storedAt + ttl` and the claim demands a miss; the code returns the stored
value (the truthiness `or` replaced the zero override by the 3600-second
`schedule` category TTL). -/
theorem cache_ttl_claim_counterexample :
    ((claimTTL (some 0) "schedule:2025" : ℚ) ≤ 100 - 0) ∧
    cache_get (cache_set (cacheEmpty (α := ℕ)) "schedule:2025" 7 0)
      "schedule:2025" (some 0) 100 = some 7 := by
  have h : resolveTTL (some 0) "schedule:2025" = 3600 := by decide
  constructor
  · norm_num [claimTTL]
  · simp only [cache_get, cache_set, cacheEmpty, if_pos rfl, h]
    norm_num

/-- Witness for `cache_set_get_ttl` at the key `"schedule:2025"` (category
TTL 3600) with no override. -/
theorem cache_set_get_ttl_witness :
    cache_get (cache_set (cacheEmpty (α := ℕ)) "schedule:2025" 7 0)
      "schedule:2025" none 100 = some 7 ∧
    cache_get (cache_set (cacheEmpty (α := ℕ)) "schedule:2025" 7 0)
      "schedule:2025" none 3600 = none :=
  ⟨(cache_set_get_ttl cacheEmpty "schedule:2025" 7 none 0 100).1
      (by have h : resolveTTL none "schedule:2025" = 3600 := by decide
          rw [h]; norm_num),
   (cache_set_get_ttl cacheEmpty "schedule:2025" 7 none 0 3600).2
      (by have h : resolveTTL none "schedule:2025" = 3600 := by decide
          rw [h]; norm_num)⟩

/-- Bounds and frame of a single `acquire` call. -/
theorem acquire_bounds (s : RateLimiter) (h : 0 ≤ s.burst) (now : ℚ) :
    0 ≤ (s.acquire now).tokens ∧ (s.acquire now).tokens ≤ s.burst ∧
      (s.acquire now).burst = s.burst := by
  by_cases hlt : min s.burst (s.tokens + (now - s.last_refill) * s.rate) < 1
  · simp only [RateLimiter.acquire, if_pos hlt]
    exact ⟨le_refl 0, h, trivial⟩
  · simp only [RateLimiter.acquire, if_neg hlt]
    refine ⟨?_, ?_, trivial⟩
    · show (0 : ℚ) ≤ min s.burst (s.tokens + (now - s.last_refill) * s.rate) - 1
      linarith [not_lt.mp hlt]
    · show min s.burst (s.tokens + (now - s.last_refill) * s.rate) - 1 ≤ s.burst
      linarith [min_le_left s.burst (s.tokens + (now - s.last_refill) * s.rate)]

/-- Bounds along any serialized sequence of `acquire` calls. -/
theorem run_bounds : ∀ (ts : List ℚ) (s : RateLimiter), 0 ≤ s.burst →
    ts ≠ [] → 0 ≤ (s.run ts).tokens ∧ (s.run ts).tokens ≤ s.burst := by
  intro ts
  induction ts with
  | nil => intro s _ hne; exact absurd rfl hne
  | cons t rest ih =>
    intro s hb _
    have hstep := acquire_bounds s hb t
    cases rest with
    | nil =>
      exact ⟨hstep.1, hstep.2.1⟩
    | cons r rs =>
      have hb2 : 0 ≤ (s.acquire t).burst := by rw [hstep.2.2]; exact hb
      have h2 := ih (s.acquire t) hb2 (by simp)
      rw [hstep.2.2] at h2
      exact h2

/-- C6: for every `RateLimiter`, `0 ≤ tokens ≤ burst` holds after every
completed `acquire`: the refill caps tokens at `burst`, after which either
one token is consumed (at least one available) or the count is set to `0`,
so no serialized interleaving of `acquire` calls drives the count above
`burst` or below zero. -/
theorem rate_limiter_invariant (s : RateLimiter) (h : 0 ≤ s.burst) :
    (∀ now, (s.acquire now).tokens =
        (if min s.burst (s.tokens + (now - s.last_refill) * s.rate) < 1
         then 0
         else min s.burst (s.tokens + (now - s.last_refill) * s.rate) - 1)) ∧
    (∀ now, 0 ≤ (s.acquire now).tokens ∧ (s.acquire now).tokens ≤ s.burst) ∧
    (∀ ts, ts ≠ [] → 0 ≤ (s.run ts).tokens ∧ (s.run ts).tokens ≤ s.burst) := by
  refine ⟨?_, ?_, ?_⟩
  · intro now
    by_cases hlt : min s.burst (s.tokens + (now - s.last_refill) * s.rate) < 1
    · simp only [RateLimiter.acquire, if_pos hlt]
    · simp only [RateLimiter.acquire, if_neg hlt]
  · intro now
    exact ⟨(acquire_bounds s h now).1, (acquire_bounds s h now).2.1⟩
  · intro ts hne
    exact run_bounds ts s h hne

/-- Witness for `rate_limiter_invariant` at the Ergast limiter's concrete
parameters (`rate = 3.5`, `burst = 4`, full bucket). -/
theorem rate_limiter_invariant_witness :
    0 ≤ (RateLimiter.run ⟨7/2, 4, 4, 0⟩ [1, 1, 1, 1, 1]).tokens ∧
    (RateLimiter.run ⟨7/2, 4, 4, 0⟩ [1, 1, 1, 1, 1]).tokens ≤
      (RateLimiter.mk (7/2) 4 4 0).burst :=
  (rate_limiter_invariant ⟨7/2, 4, 4, 0⟩ (by norm_num)).2.2
    [1, 1, 1, 1, 1] (by simp)

/-- C8: in the dashboard cross-enrichment, a position record whose
`tyre_age` is `0` and whose stint start is truthy gets, when the matching
timing record reports a truthy `lap_number`, its tyre age recomputed as
`max 0 (lap_number - stint_lap_start)` and `current_lap` set to that lap
number; a record already carrying a non-zero tyre age keeps it.  The
companion fact on `get_live_positions`: a still-open stint (no `lap_end`)
is assigned tyre age `0`. -/
theorem dashboard_tyre_age_spec (ps : List DashPos) (ts : List DashTim)
    (hps : ps ≠ []) (hts : ts ≠ []) :
    crossEnrich ps ts = ps.map (dashStep (timing_by_dn ts)) ∧
    (∀ p t ln, timing_by_dn ts p.driver_number = some t →
      t.lap_number = some ln → ln ≠ 0 → p.tyre_age = 0 →
      p.stint_lap_start ≠ 0 →
      (dashStep (timing_by_dn ts) p).tyre_age =
          max 0 (ln - p.stint_lap_start) ∧
        (dashStep (timing_by_dn ts) p).current_lap = some ln) ∧
    (∀ p, p.tyre_age ≠ 0 →
      (dashStep (timing_by_dn ts) p).tyre_age = p.tyre_age) ∧
    (∀ ls, stintTyreAge ls none = 0) := by
  refine ⟨?_, ?_, ?_, ?_⟩
  · unfold crossEnrich
    rw [if_neg]
    push_neg
    exact ⟨hps, hts⟩
  · intro p t ln h1 h2 h3 h4 h5
    simp [dashStep, h1, h2, h3, h4, h5]
  · intro p h
    cases hm : timing_by_dn ts p.driver_number with
    | none => simp [dashStep, hm]
    | some t =>
      cases hln : t.lap_number with
      | none => simp [dashStep, hm, hln]
      | some ln =>
        by_cases hz : ln = 0 <;> simp [dashStep, hm, hln, hz, h]
  · intro ls
    unfold stintTyreAge
    by_cases h : ls = 0 <;> simp [h]

/-- Witness for `dashboard_tyre_age_spec`: driver 44 on lap 30 with a stint
started at lap 25 and a zero stored tyre age is recomputed to age 5. -/
theorem dashboard_tyre_age_witness :
    (dashStep (timing_by_dn [⟨44, some 30⟩]) ⟨44, 0, 25, none⟩).tyre_age =
        max 0 (30 - 25) ∧
      (dashStep (timing_by_dn [⟨44, some 30⟩])
          ⟨44, 0, 25, none⟩).current_lap = some 30 :=
  (dashboard_tyre_age_spec [⟨44, 0, 25, none⟩] [⟨44, some 30⟩] (by decide)
      (by decide)).2.1 ⟨44, 0, 25, none⟩ ⟨44, some 30⟩ 30 (by decide)
    (by decide) (by decide) (by decide) (by decide)

/-! ## Claim C4: fetcher retry behaviour -/

/-- The successful payload of an outcome, when any. -/
def asOk : FetchOutcome → Option ℕ
  | .ok v => some v
  | _ => none

/-- The attempt indices actually executed: the given schedule truncated
just after the first successful attempt. -/
def cutAtSuccess (out : ℕ → FetchOutcome) : List ℕ → List ℕ
  | [] => []
  | a :: rest =>
    match out a with
    | .ok _ => [a]
    | _ => a :: cutAtSuccess out rest

/-- Sleeps of one attempt as the amended claim words them: on 429 wait
`min(delay * 2^attempt, 10)`; on another non-200 status sleep the flat
`delay` when attempts remain; on a network error sleep
`delay * (attempt + 1)` when attempts remain; no sleep on success. -/
def specSleeps (d : ℚ) (retries a : ℕ) : FetchOutcome → List ℚ
  | .ok _ => []
  | .tooMany => [min (d * 2 ^ a) 10]
  | .httpErr _ => if a < retries then [d] else []
  | .netErr => if a < retries then [d * (a + 1)] else []

/-- Sleep/acquire events of one Ergast attempt as the amended claim words
them: the 429 sleep is followed by a rate-limiter re-acquisition. -/
def specErgEvents (d : ℚ) (retries a : ℕ) : FetchOutcome → List ErgEvent
  | .ok _ => []
  | .tooMany => [.slept (min (d * 2 ^ a) 10), .tokenAcquired]
  | .httpErr _ => if a < retries then [.slept d] else []
  | .netErr => if a < retries then [.slept (d * (a + 1))] else []

/-- C4 counterexample: with every attempt answering HTTP 500 and
`retry_delay = 1`, the code sleeps the flat delay `[1, 1]`, not the
claimed `delay * (attempt + 1)` schedule `[1, 2]` — only network errors
get the growing backoff (lines 288-289 versus 294-295). -/
theorem fetch_retry_claim_counterexample :
    (fetch_openf1 (fun _ => FetchOutcome.httpErr 500) 1 2).2 ≠
        [1 * (0 + 1), 1 * (1 + 1)] ∧
      (fetch_openf1 (fun _ => FetchOutcome.httpErr 500) 1 2).2 = [1, 1] := by
  constructor
  · simp [fetch_openf1, openf1Loop, List.range_succ]
  · simp [fetch_openf1, openf1Loop, List.range_succ]

set_option maxHeartbeats 1000000 in
/-- C4 (amended): with the default budget of 2 retries, both fetchers make
at most 3 attempts and return the payload of the first successful attempt,
or the sentinel `none` when the budget is exhausted, never an exception
(the embedding is total); on 429 an attempt sleeps
`min(delay * 2^attempt, 10)` before retrying — `fetch_ergast` then
re-acquires a limiter token; on another non-200 status the attempt sleeps
the flat `delay`; on a network error it sleeps `delay * (attempt + 1)`;
neither failure kind sleeps once the budget is exhausted. -/
theorem fetch_retry_spec (out : ℕ → FetchOutcome) (d : ℚ) :
    (fetch_openf1 out d 2).1 =
        (List.range 3).findSome? (fun a => asOk (out a)) ∧
      (fetch_openf1 out d 2).2 =
        ((cutAtSuccess out (List.range 3)).map
            (fun a => specSleeps d 2 a (out a))).flatten ∧
      (fetch_ergast out d 2).1 = (fetch_openf1 out d 2).1 ∧
      (fetch_ergast out d 2).2 =
        ErgEvent.tokenAcquired ::
          ((cutAtSuccess out (List.range 3)).map
              (fun a => specErgEvents d 2 a (out a))).flatten := by
  have h3 : List.range 3 = [0, 1, 2] := rfl
  rw [h3]
  cases h0 : out 0 <;> cases h1 : out 1 <;> cases h2 : out 2 <;>
    simp [fetch_openf1, fetch_ergast, openf1Loop, ergastLoop, cutAtSuccess,
      specSleeps, specErgEvents, asOk, h0, h1, h2]

/-! ## Claim C5: latest-record merge -/

/-- At the record's own driver number, one `posStep` iteration acts as
`oneStep` on the stored entry. -/
theorem posStep_self (m : ℕ → Option PosRec) (e : PosRec) (dn : ℕ)
    (he : e.driver_number = some dn) :
    posStep m e dn = oneStep (m dn) e := by
  cases hm : m dn with
  | none => simp [posStep, he, hm, oneStep]
  | some cur =>
    by_cases hd : dateOf cur < dateOf e <;> simp [posStep, he, hm, oneStep, hd]

/-- At any other driver number the iteration leaves the map unchanged. -/
theorem posStep_other (m : ℕ → Option PosRec) (e : PosRec) (dn : ℕ)
    (he : e.driver_number ≠ some dn) :
    posStep m e dn = m dn := by
  cases hdn : e.driver_number with
  | none => simp [posStep, hdn]
  | some d =>
    have hne : dn ≠ d := by
      intro h
      exact he (by rw [hdn, h])
    cases hm : m d with
    | none => simp [posStep, hdn, hm, hne]
    | some cur =>
      by_cases hd : dateOf cur < dateOf e <;> simp [posStep, hdn, hm, hd, hne]

/-- The full fold at a driver number equals the `oneStep` fold over that
driver's records. -/
theorem foldl_posStep_eq : ∀ (l : List PosRec) (m : ℕ → Option PosRec)
    (dn : ℕ),
    (l.foldl posStep m) dn = (recordsOf dn l).foldl oneStep (m dn) := by
  intro l
  induction l with
  | nil => intro m dn; rfl
  | cons e rest ih =>
    intro m dn
    show (rest.foldl posStep (posStep m e)) dn =
      (recordsOf dn (e :: rest)).foldl oneStep (m dn)
    rw [ih]
    by_cases he : e.driver_number = some dn
    · have : recordsOf dn (e :: rest) = e :: recordsOf dn rest := by
        simp [recordsOf, he]
      rw [this, List.foldl_cons, posStep_self m e dn he]
    · have : recordsOf dn (e :: rest) = recordsOf dn rest := by
        simp [recordsOf, he]
      rw [this, posStep_other m e dn he]

/-- The interval variant of `posStep_self`; the extra Python truthiness
guard only skips driver number 0. -/
theorem intervalStep_self (m : ℕ → Option PosRec) (e : PosRec) (dn : ℕ)
    (he : e.driver_number = some dn) (h0 : dn ≠ 0) :
    intervalStep m e dn = oneStep (m dn) e := by
  cases hm : m dn with
  | none => simp [intervalStep, he, hm, oneStep, h0]
  | some cur =>
    by_cases hd : dateOf cur < dateOf e <;>
      simp [intervalStep, he, hm, oneStep, hd, h0]

/-- The interval variant of `posStep_other`. -/
theorem intervalStep_other (m : ℕ → Option PosRec) (e : PosRec) (dn : ℕ)
    (he : e.driver_number ≠ some dn) :
    intervalStep m e dn = m dn := by
  cases hdn : e.driver_number with
  | none => simp [intervalStep, hdn]
  | some d =>
    have hne : dn ≠ d := by
      intro h
      exact he (by rw [hdn, h])
    by_cases h0 : d = 0
    · simp [intervalStep, hdn, h0]
    · cases hm : m d with
      | none => simp [intervalStep, hdn, hm, hne, h0]
      | some cur =>
        by_cases hd : dateOf cur < dateOf e <;>
          simp [intervalStep, hdn, hm, hd, hne, h0]

/-- The interval fold agrees with the `oneStep` fold for every truthy
driver number. -/
theorem foldl_intervalStep_eq : ∀ (l : List PosRec)
    (m : ℕ → Option PosRec) (dn : ℕ), dn ≠ 0 →
    (l.foldl intervalStep m) dn = (recordsOf dn l).foldl oneStep (m dn) := by
  intro l
  induction l with
  | nil => intro m dn _; rfl
  | cons e rest ih =>
    intro m dn h0
    show (rest.foldl intervalStep (intervalStep m e)) dn =
      (recordsOf dn (e :: rest)).foldl oneStep (m dn)
    rw [ih _ _ h0]
    by_cases he : e.driver_number = some dn
    · have : recordsOf dn (e :: rest) = e :: recordsOf dn rest := by
        simp [recordsOf, he]
      rw [this, List.foldl_cons, intervalStep_self m e dn he h0]
    · have : recordsOf dn (e :: rest) = recordsOf dn rest := by
        simp [recordsOf, he]
      rw [this, intervalStep_other m e dn he]

/-- A `oneStep` fold started from a stored record never returns `none`. -/
theorem foldl_oneStep_ne_none : ∀ (l : List PosRec) (c : PosRec),
    l.foldl oneStep (some c) ≠ none := by
  intro l
  induction l with
  | nil => intro c h; exact Option.noConfusion h
  | cons e rest ih =>
    intro c
    show rest.foldl oneStep (oneStep (some c) e) ≠ none
    by_cases hd : dateOf c < dateOf e <;> simp [oneStep, hd] <;> apply ih

/-- The fold misses exactly on the empty record list. -/
theorem latestOne_eq_none_iff (l : List PosRec) :
    latestOne l = none ↔ l = [] := by
  constructor
  · intro h
    cases l with
    | nil => rfl
    | cons e rest =>
      exact absurd h (by
        show rest.foldl oneStep (oneStep none e) ≠ none
        exact foldl_oneStep_ne_none rest e)
  · intro h; subst h; rfl

/-- The `oneStep` fold returns a member of the list (or the start record)
whose date is at least every date in the list and at least the start
record's date. -/
theorem foldl_oneStep_max : ∀ (l : List PosRec) (acc : Option PosRec)
    (e : PosRec), l.foldl oneStep acc = some e →
    (acc = some e ∨ e ∈ l) ∧ (∀ x ∈ l, dateOf x ≤ dateOf e) ∧
      (∀ c, acc = some c → dateOf c ≤ dateOf e) := by
  intro l
  induction l with
  | nil =>
    intro acc e h
    refine ⟨Or.inl h, by simp, ?_⟩
    intro c hc
    rw [hc] at h
    cases h
    exact le_refl _
  | cons x rest ih =>
    intro acc e h
    have h' : rest.foldl oneStep (oneStep acc x) = some e := h
    obtain ⟨hmem, hrest, hacc⟩ := ih (oneStep acc x) e h'
    have hx_le : dateOf x ≤ dateOf e := by
      cases hacc0 : acc with
      | none =>
        exact hacc x (by simp [oneStep, hacc0])
      | some c =>
        by_cases hd : dateOf c < dateOf x
        · exact hacc x (by simp [oneStep, hacc0, hd])
        · exact le_trans (not_lt.mp hd) (hacc c (by simp [oneStep, hacc0, hd]))
    refine ⟨?_, ?_, ?_⟩
    · rcases hmem with hm | hm
      · cases hacc0 : acc with
        | none =>
          rw [hacc0] at hm
          simp [oneStep] at hm
          exact Or.inr (by simp [hm])
        | some c =>
          rw [hacc0] at hm
          by_cases hd : dateOf c < dateOf x
          · simp [oneStep, hd] at hm
            exact Or.inr (by simp [hm])
          · simp [oneStep, hd] at hm
            exact Or.inl (congrArg some hm)
      · exact Or.inr (List.mem_cons_of_mem x hm)
    · intro y hy
      rcases List.mem_cons.mp hy with hy | hy
      · rw [hy]; exact hx_le
      · exact hrest y hy
    · intro c hc
      by_cases hd : dateOf c < dateOf x
      · exact le_trans (le_of_lt hd) hx_le
      · exact hacc c (by simp [oneStep, hc, hd])

/-- C5: in `get_live_positions` the merged record of every driver is the
record with the lexicographically greatest upstream date string among that
driver's records — independent of the arrival order of the fetched list
(stated for drivers whose records carry pairwise distinct date strings,
which makes that record unique) — and `get_live_timing` selects each
truthy driver number's interval record by the same rule. -/
theorem latest_merge_spec (l l' : List PosRec) (dn : ℕ)
    (hperm : l'.Perm l)
    (hd : (recordsOf dn l).Pairwise (fun a b => dateOf a ≠ dateOf b)) :
    latest_pos l' dn = latest_pos l dn ∧
    (∀ e, latest_pos l dn = some e →
      e ∈ recordsOf dn l ∧ ∀ x ∈ recordsOf dn l, dateOf x ≤ dateOf e) ∧
    (latest_pos l dn = none ↔ recordsOf dn l = []) ∧
    (dn ≠ 0 → latest_intervals l dn = latest_pos l dn) := by
  have hp : latest_pos l dn = latestOne (recordsOf dn l) :=
    foldl_posStep_eq l _ dn
  have hp' : latest_pos l' dn = latestOne (recordsOf dn l') :=
    foldl_posStep_eq l' _ dn
  have hrp : (recordsOf dn l').Perm (recordsOf dn l) := hperm.filter _
  have hspec : ∀ (ls : List PosRec) (e : PosRec), latestOne ls = some e →
      e ∈ ls ∧ ∀ x ∈ ls, dateOf x ≤ dateOf e := by
    intro ls e h
    obtain ⟨hmem, hall, _⟩ := foldl_oneStep_max ls none e h
    rcases hmem with hm | hm
    · exact absurd hm (by simp)
    · exact ⟨hm, hall⟩
  refine ⟨?_, ?_, ?_, ?_⟩
  · rw [hp, hp']
    cases hres : latestOne (recordsOf dn l) with
    | none =>
      have hnil : recordsOf dn l = [] := (latestOne_eq_none_iff _).mp hres
      have hnil' : recordsOf dn l' = [] := List.Perm.eq_nil (hnil ▸ hrp)
      rw [(latestOne_eq_none_iff _).mpr hnil']
    | some e =>
      cases hres' : latestOne (recordsOf dn l') with
      | none =>
        have hnil' : recordsOf dn l' = [] := (latestOne_eq_none_iff _).mp hres'
        have hnil : recordsOf dn l = [] := List.Perm.eq_nil (hnil' ▸ hrp.symm)
        rw [hnil] at hres
        exact absurd hres (by simp [latestOne])
      | some f =>
        obtain ⟨he_mem, he_max⟩ := hspec _ e hres
        obtain ⟨hf_mem', hf_max'⟩ := hspec _ f hres'
        have hf_mem : f ∈ recordsOf dn l := hrp.mem_iff.mp hf_mem'
        have hle1 : dateOf f ≤ dateOf e := he_max f hf_mem
        have hle2 : dateOf e ≤ dateOf f :=
          hf_max' e (hrp.mem_iff.mpr he_mem)
        have hdate : dateOf f = dateOf e := le_antisymm hle1 hle2
        have hfe : f = e := by
          by_contra hne
          have hsymm : Symmetric (fun a b : PosRec => dateOf a ≠ dateOf b) :=
            fun a b hab heq => hab heq.symm
          exact (hd.forall hsymm hf_mem he_mem hne) hdate
        rw [hfe]
  · intro e he
    exact hspec _ e (hp ▸ he)
  · rw [hp]
    exact latestOne_eq_none_iff _
  · intro h0
    have hi : latest_intervals l dn = latestOne (recordsOf dn l) :=
      foldl_intervalStep_eq l _ dn h0
    rw [hi, hp]

/-- Witness for `latest_merge_spec` at the spec's merge scenario: drivers
1 and 44 with timestamps t1 < t2 and a newer duplicate record for driver 1
at t3; the merged view reports driver 1's t3 record whichever order the
records arrive in. -/
theorem latest_merge_witness :
    latest_pos [⟨some 1, some "t3", 30⟩, ⟨some 44, some "t2", 20⟩,
        ⟨some 1, some "t1", 10⟩] 1 =
      latest_pos [⟨some 1, some "t1", 10⟩, ⟨some 44, some "t2", 20⟩,
        ⟨some 1, some "t3", 30⟩] 1 ∧
    latest_pos [⟨some 1, some "t1", 10⟩, ⟨some 44, some "t2", 20⟩,
        ⟨some 1, some "t3", 30⟩] 1 = some ⟨some 1, some "t3", 30⟩ :=
  ⟨(latest_merge_spec
      [⟨some 1, some "t1", 10⟩, ⟨some 44, some "t2", 20⟩,
        ⟨some 1, some "t3", 30⟩]
      [⟨some 1, some "t3", 30⟩, ⟨some 44, some "t2", 20⟩,
        ⟨some 1, some "t1", 10⟩] 1
      (by decide) (by decide)).1,
   by
     have hlt : ("t1" : String) < "t3" :=
       String.lt_iff_toList_lt.mpr (by decide)
     simp [latest_pos, posStep, dateOf, hlt]⟩

/-! ## Claim C7: track outline fetched at most once -/

/-- The disk artifact passes the read-back validation of line 1927
(`if points and len(points) >= 20`). -/
def goodDisk (st : TOState) : Prop :=
  ∃ pts, st.disk = some pts ∧ pts ≠ [] ∧ 20 ≤ pts.length

/-- A call finding a valid disk artifact issues no location query and
preserves the artifact, whatever the clock and upstream responses. -/
theorem trackOutlineCall_no_fetch (st : TOState) (skey : String) (now : ℚ)
    (f : TOFetch) (h : goodDisk st) :
    (trackOutlineCall st skey now f).2.1 = false ∧
      (trackOutlineCall st skey now f).2.2.disk = st.disk := by
  obtain ⟨pts, hdisk, hne, hlen⟩ := h
  unfold trackOutlineCall
  cases hmem : cache_get st.mem ("track_outline:" ++ skey) (some 86400) now with
  | some q => simp [hmem]
  | none => simp [hmem, hdisk, hne, hlen]

/-- Along any sequence of later calls a valid disk artifact keeps all
location-query counts at zero. -/
theorem runTrackCalls_no_fetch : ∀ (calls : List (ℚ × TOFetch))
    (st : TOState) (skey : String), goodDisk st →
    (runTrackCalls st skey calls).1 = 0 ∧
      goodDisk (runTrackCalls st skey calls).2 := by
  have key : ∀ (calls : List (ℚ × TOFetch)) (acc : ℕ × TOState)
      (skey : String), goodDisk acc.2 →
      (calls.foldl
        (fun acc c =>
          let r := trackOutlineCall acc.2 skey c.1 c.2
          (acc.1 + (if r.2.1 then 1 else 0), r.2.2)) acc).1 = acc.1 ∧
      goodDisk (calls.foldl
        (fun acc c =>
          let r := trackOutlineCall acc.2 skey c.1 c.2
          (acc.1 + (if r.2.1 then 1 else 0), r.2.2)) acc).2 := by
    intro calls
    induction calls with
    | nil => intro acc skey h; exact ⟨rfl, h⟩
    | cons c rest ih =>
      intro acc skey h
      obtain ⟨hf, hdisk⟩ := trackOutlineCall_no_fetch acc.2 skey c.1 c.2 h
      have hgood : goodDisk (trackOutlineCall acc.2 skey c.1 c.2).2.2 := by
        obtain ⟨pts, hd, hn, hl⟩ := h
        exact ⟨pts, hdisk.trans hd, hn, hl⟩
      rw [List.foldl_cons]
      simp only [hf, Bool.false_eq_true, if_false, Nat.add_zero]
      exact ih (acc.1, (trackOutlineCall acc.2 skey c.1 c.2).2.2) skey hgood
  intro calls st skey h
  exact key calls (0, st) skey h

/-- Exhaustive shape of one call: a no-fetch answer, a failed attempt that
leaves the disk untouched, or a successful computation of at least 20
points whose persistence follows the disk-write success flag. -/
theorem trackOutlineCall_cases (st : TOState) (skey : String) (now : ℚ)
    (f : TOFetch) :
    ((trackOutlineCall st skey now f).2.1 = false ∧
      (trackOutlineCall st skey now f).2.2.disk = st.disk) ∨
    ((trackOutlineCall st skey now f).1 = none ∧
      (trackOutlineCall st skey now f).2.2.disk = st.disk) ∨
    (∃ pts, (trackOutlineCall st skey now f).1 = some pts ∧
      ¬ pts.length < 20 ∧
      (trackOutlineCall st skey now f).2.2.disk =
        (if f.diskOk then some pts else st.disk)) := by
  simp only [trackOutlineCall]
  split
  · exact Or.inl ⟨rfl, rfl⟩
  · split
    · exact Or.inl ⟨rfl, rfl⟩
    · split
      · exact Or.inr (Or.inl ⟨rfl, rfl⟩)
      · split
        · exact Or.inr (Or.inl ⟨rfl, rfl⟩)
        · split
          · exact Or.inr (Or.inl ⟨rfl, rfl⟩)
          · split
            · exact Or.inr (Or.inl ⟨rfl, rfl⟩)
            · split
              · exact Or.inr (Or.inl ⟨rfl, rfl⟩)
              · rename_i hlen
                exact Or.inr (Or.inr ⟨_, rfl, hlen, rfl⟩)

/-- C7: once a `_get_track_outline` call has computed an outline — it
issued the location query, returned the points and the disk write
succeeded — the artifact holds at least 20 points, and every later call
for the same session id (any clock readings, any upstream responses,
including in-memory TTL expiry) is answered without issuing the location
query again. -/
theorem track_outline_at_most_once (st : TOState) (skey : String)
    (now : ℚ) (f : TOFetch) (pts : List TPt) (calls : List (ℚ × TOFetch))
    (hdOk : f.diskOk = true)
    (hres : (trackOutlineCall st skey now f).1 = some pts)
    (hfetch : (trackOutlineCall st skey now f).2.1 = true) :
    20 ≤ pts.length ∧
      (trackOutlineCall st skey now f).2.2.disk = some pts ∧
      (runTrackCalls (trackOutlineCall st skey now f).2.2 skey calls).1
        = 0 := by
  have hmain : 20 ≤ pts.length ∧
      (trackOutlineCall st skey now f).2.2.disk = some pts := by
    rcases trackOutlineCall_cases st skey now f with h | h | h
    · rw [h.1] at hfetch
      exact absurd hfetch (by simp)
    · rw [h.1] at hres
      exact absurd hres (by simp)
    · obtain ⟨pts', h1, h2, h3⟩ := h
      rw [h1] at hres
      cases hres
      rw [hdOk] at h3
      simp only [if_true] at h3
      exact ⟨not_lt.mp h2, h3⟩
  refine ⟨hmain.1, hmain.2, ?_⟩
  refine (runTrackCalls_no_fetch calls _ skey ⟨pts, hmain.2, ?_, hmain.1⟩).1
  intro hnil
  rw [hnil] at hmain
  exact absurd hmain.1 (by simp)

/-- Witness for `track_outline_at_most_once`: an empty state, a first call
that fetches 25 location samples and persists them, then a later call a
day later with every upstream response failed — the count of location
queries among the later calls is zero. -/
theorem track_outline_witness :
    (runTrackCalls
        (trackOutlineCall ⟨cacheEmpty, none⟩ "9693" 0
            ⟨some [⟨1, 5, some "2024-03-16T05:00:00", some 90⟩], none,
              some (List.replicate 25 ⟨some 1, some 2⟩), true⟩).2.2 "9693"
        [(100000, ⟨none, none, none, false⟩)]).1 = 0 :=
  (track_outline_at_most_once ⟨cacheEmpty, none⟩ "9693" 0
      ⟨some [⟨1, 5, some "2024-03-16T05:00:00", some 90⟩], none,
        some (List.replicate 25 ⟨some 1, some 2⟩), true⟩
      (List.replicate 25 ⟨1, 2⟩) [(100000, ⟨none, none, none, false⟩)]
      rfl (by decide) (by decide)).2.2

/-! ## Claim C2: session resolver -/

/-- With a fresh (missed) resolution cache, the resolved triple does not
depend on the rest of the cache contents. -/
theorem resolveAuto_fst (st1 st2 : ResolverState) (now : ℚ)
    (fetch : String → Option (List SessionR))
    (h1 : cache_get st1.cache "_fallback_resolved" (some 60) now = none)
    (h2 : cache_get st2.cache "_fallback_resolved" (some 60) now = none) :
    (resolveAuto st1 now fetch).1 = (resolveAuto st2 now fetch).1 := by
  simp only [resolveAuto, h1, h2]
  repeat first | rfl | split

/-- C2: with no operator override and a fresh resolution, the resolver
returns key `"latest"` with `is_demo = false` exactly when the fetched
latest session's declared window brackets `now` with the 30-minute grace
period (`date_start ≤ now ≤ date_end + 1800`); otherwise it returns that
session's own key as a string with `is_demo = true`.  Setting any override
with `set_demo_session` and then clearing it leaves no override and no
cached resolution, so resolution returns to exactly this auto-resolved
triple. -/
theorem session_resolver_spec (cache : Cache ResolverVal) (now : ℚ)
    (fetch : String → Option (List SessionR)) (ss : List SessionR)
    (s : SessionR) (sk : ℤ) (st0 en : ℚ)
    (hcache : cache_get cache "_fallback_resolved" (some 60) now = none)
    (hfetch : fetch "latest" = some ss)
    (hlast : ss.getLast? = some s)
    (hsk : s.session_key = some sk) (hsk0 : sk ≠ 0)
    (hst : s.date_start = some st0) (hen : s.date_end = some en) :
    (((get_fallback_session_key ⟨none, cache⟩ now fetch).1.1 = "latest" ∧
        (get_fallback_session_key ⟨none, cache⟩ now fetch).1.2.1 = false) ↔
      (st0 ≤ now ∧ now ≤ en + 1800)) ∧
    (¬ (st0 ≤ now ∧ now ≤ en + 1800) →
      (get_fallback_session_key ⟨none, cache⟩ now fetch).1.1 =
          toString sk ∧
        (get_fallback_session_key ⟨none, cache⟩ now fetch).1.2.1 = true) ∧
    (∀ (stAny : ResolverState) (k : String),
      (set_demo_session none (set_demo_session (some k) stAny)).ov = none ∧
      (∀ o now2, cache_get
          (set_demo_session none (set_demo_session (some k) stAny)).cache
          "_fallback_resolved" o now2 = none) ∧
      (get_fallback_session_key
          (set_demo_session none (set_demo_session (some k) stAny)) now
          fetch).1 =
        (get_fallback_session_key ⟨none, cache⟩ now fetch).1) := by
  have hauto : get_fallback_session_key ⟨none, cache⟩ now fetch =
      resolveAuto ⟨none, cache⟩ now fetch := rfl
  have hmiss : ∀ (stAny : ResolverState) (k : String),
      (set_demo_session none (set_demo_session (some k) stAny)).cache
        "_fallback_resolved" = none := by
    intro stAny k
    have hsw1 : strStartsWith "_fallback_resolved" "live_" = false := by decide
    have hsw2 : strStartsWith "_fallback_resolved" "_fallback" = true := by
      decide
    simp [set_demo_session, cache_clear, hsw1, hsw2]
  refine ⟨?_, ?_, ?_⟩
  · rw [hauto]
    simp only [resolveAuto, hcache, hfetch, Option.getD_some, hlast, hst, hen]
    by_cases hlive : st0 ≤ now ∧ now ≤ en + 1800
    · simp [hlive]
    · simp [hlive, hsk, hsk0]
  · intro hlive
    rw [hauto]
    simp only [resolveAuto, hcache, hfetch, Option.getD_some, hlast, hst, hen]
    simp [hlive, hsk, hsk0]
  · intro stAny k
    refine ⟨rfl, ?_, ?_⟩
    · intro o now2
      simp [cache_get, hmiss stAny k]
    · have hk2 : get_fallback_session_key
          (set_demo_session none (set_demo_session (some k) stAny)) now
          fetch =
          resolveAuto (set_demo_session none (set_demo_session (some k)
            stAny)) now fetch := rfl
      rw [hk2, hauto]
      refine resolveAuto_fst _ _ now fetch ?_ hcache
      simp [cache_get, hmiss stAny k]

/-- Witness for `session_resolver_spec`: a session with window
`[100, 200]` fetched at `now = 150` resolves live to `"latest"`, and at
`now = 5000` (beyond the grace period) resolves to its own key `"9693"`
in demo mode. -/
theorem session_resolver_witness :
    ((get_fallback_session_key ⟨none, cacheEmpty⟩ 150
        (fun _ => some [⟨some 9693, "Race", "Race", "Melbourne GP",
          "Melbourne", some 100, some 200⟩])).1.1 = "latest" ∧
      (get_fallback_session_key ⟨none, cacheEmpty⟩ 150
        (fun _ => some [⟨some 9693, "Race", "Race", "Melbourne GP",
          "Melbourne", some 100, some 200⟩])).1.2.1 = false) ∧
    ((get_fallback_session_key ⟨none, cacheEmpty⟩ 5000
        (fun _ => some [⟨some 9693, "Race", "Race", "Melbourne GP",
          "Melbourne", some 100, some 200⟩])).1.1 = toString (9693 : ℤ) ∧
      (get_fallback_session_key ⟨none, cacheEmpty⟩ 5000
        (fun _ => some [⟨some 9693, "Race", "Race", "Melbourne GP",
          "Melbourne", some 100, some 200⟩])).1.2.1 = true) :=
  ⟨(session_resolver_spec cacheEmpty 150
      (fun _ => some [⟨some 9693, "Race", "Race", "Melbourne GP",
        "Melbourne", some 100, some 200⟩])
      [⟨some 9693, "Race", "Race", "Melbourne GP", "Melbourne", some 100,
        some 200⟩]
      ⟨some 9693, "Race", "Race", "Melbourne GP", "Melbourne", some 100,
        some 200⟩
      9693 100 200 rfl rfl rfl rfl (by norm_num) rfl rfl).1.mpr
      (by norm_num),
   (session_resolver_spec cacheEmpty 5000
      (fun _ => some [⟨some 9693, "Race", "Race", "Melbourne GP",
        "Melbourne", some 100, some 200⟩])
      [⟨some 9693, "Race", "Race", "Melbourne GP", "Melbourne", some 100,
        some 200⟩]
      ⟨some 9693, "Race", "Race", "Melbourne GP", "Melbourne", some 100,
        some 200⟩
      9693 100 200 rfl rfl rfl rfl (by norm_num) rfl rfl).2.1
      (by norm_num)⟩

/-! ## Claim C1: tyre-degradation stint analysis -/

/-- Expansion of a centered cross-product sum. -/
theorem sum_map_expand (l : List (ℚ × ℚ)) (a b : ℚ) :
    (l.map (fun p => (p.1 - a) * (p.2 - b))).sum =
      (l.map (fun p => p.1 * p.2)).sum - a * (l.map Prod.snd).sum -
        b * (l.map Prod.fst).sum + l.length * (a * b) := by
  induction l with
  | nil => simp
  | cons p ps ih =>
    simp only [List.map_cons, List.sum_cons, ih, List.length_cons]
    push_cast
    ring

/-- Expansion of a centered square sum. -/
theorem sum_sq_expand (l : List (ℚ × ℚ)) (a : ℚ) :
    (l.map (fun p => (p.1 - a) ^ 2)).sum =
      (l.map (fun p => p.1 ^ 2)).sum - 2 * a * (l.map Prod.fst).sum +
        l.length * a ^ 2 := by
  induction l with
  | nil => simp
  | cons p ps ih =>
    simp only [List.map_cons, List.sum_cons, ih, List.length_cons]
    push_cast
    ring

/-- Sum of a function constant on the list. -/
theorem sum_map_const_eq {α : Type} (l : List α) (f : α → ℚ) (c : ℚ)
    (h : ∀ x ∈ l, f x = c) : (l.map f).sum = l.length * c := by
  induction l with
  | nil => simp
  | cons x xs ih =>
    simp only [List.map_cons, List.sum_cons, List.length_cons]
    rw [h x (by simp), ih (fun y hy => h y (by simp [hy]))]
    push_cast
    ring

/-- With all abscissas equal, the regression denominator
`n * Σx² - (Σx)²` vanishes. -/
theorem denom_eq_zero_of_const (pts : List (ℚ × ℚ)) (c : ℚ)
    (hc : ∀ p ∈ pts, p.1 = c) :
    (pts.length : ℚ) * (pts.map (fun p => p.1 ^ 2)).sum -
      ((pts.map Prod.fst).sum) ^ 2 = 0 := by
  have h1 : (pts.map Prod.fst).sum = pts.length * c :=
    sum_map_const_eq pts Prod.fst c hc
  have h2 : (pts.map (fun p => p.1 ^ 2)).sum = pts.length * c ^ 2 :=
    sum_map_const_eq pts _ (c ^ 2) (fun p hp => by rw [hc p hp])
  rw [h1, h2]
  ring

/-- With two distinct abscissas, the regression denominator is non-zero
(`n * Σx² - (Σx)² = n * Σ(x - x̄)²` is a positive multiple of a sum of
squares with a positive term). -/
theorem denom_ne_zero_of_two (pts : List (ℚ × ℚ)) (p q : ℚ × ℚ)
    (hp : p ∈ pts) (hq : q ∈ pts) (hne : p.1 ≠ q.1) :
    (pts.length : ℚ) * (pts.map (fun x => x.1 ^ 2)).sum -
      ((pts.map Prod.fst).sum) ^ 2 ≠ 0 := by
  have hn0 : pts.length ≠ 0 := by
    intro h
    rw [List.length_eq_zero] at h
    subst h
    cases hp
  have hnQ : (pts.length : ℚ) ≠ 0 := Nat.cast_ne_zero.mpr hn0
  intro hzero
  have key : (pts.map (fun x =>
      (x.1 - (pts.map Prod.fst).sum / pts.length) ^ 2)).sum =
      ((pts.length : ℚ) * (pts.map (fun x => x.1 ^ 2)).sum -
        ((pts.map Prod.fst).sum) ^ 2) / pts.length := by
    rw [sum_sq_expand]
    field_simp
    ring
  have hsum0 : (pts.map (fun x =>
      (x.1 - (pts.map Prod.fst).sum / pts.length) ^ 2)).sum = 0 := by
    rw [key, hzero, zero_div]
  have hterm : ∀ x ∈ pts,
      (x.1 - (pts.map Prod.fst).sum / pts.length) ^ 2 = 0 := by
    intro x hx
    have hnn : ∀ y ∈ pts.map (fun x =>
        (x.1 - (pts.map Prod.fst).sum / pts.length) ^ 2), 0 ≤ y := by
      intro y hy
      obtain ⟨z, _, rfl⟩ := List.mem_map.mp hy
      positivity
    have hle := List.single_le_sum hnn _ (List.mem_map_of_mem _ hx)
    have hge := sq_nonneg (x.1 - (pts.map Prod.fst).sum / pts.length)
    rw [hsum0] at hle
    linarith
  have hpa : p.1 = (pts.map Prod.fst).sum / pts.length :=
    sub_eq_zero.mp (sq_eq_zero_iff.mp (hterm p hp))
  have hqa : q.1 = (pts.map Prod.fst).sum / pts.length :=
    sub_eq_zero.mp (sq_eq_zero_iff.mp (hterm q hq))
  exact hne (hpa.trans hqa.symm)

/-- The closed-form slope computed by `_linear_regression` equals the
centered-form ordinary-least-squares slope. -/
theorem code_slope_eq_ols (pts : List (ℚ × ℚ)) (hn : pts.length ≠ 0)
    (_hd : (pts.length : ℚ) * (pts.map (fun p => p.1 ^ 2)).sum -
      ((pts.map Prod.fst).sum) ^ 2 ≠ 0) :
    ((pts.length : ℚ) * (pts.map (fun p => p.1 * p.2)).sum -
        (pts.map Prod.fst).sum * (pts.map Prod.snd).sum) /
      ((pts.length : ℚ) * (pts.map (fun p => p.1 ^ 2)).sum -
        ((pts.map Prod.fst).sum) ^ 2) = olsSlope pts := by
  have hnQ : (pts.length : ℚ) ≠ 0 := Nat.cast_ne_zero.mpr hn
  simp only [olsSlope]
  rw [sum_map_expand, sum_sq_expand]
  have hN : (pts.map (fun p => p.1 * p.2)).sum -
      (pts.map Prod.fst).sum / pts.length * (pts.map Prod.snd).sum -
      (pts.map Prod.snd).sum / pts.length * (pts.map Prod.fst).sum +
      pts.length * ((pts.map Prod.fst).sum / pts.length *
        ((pts.map Prod.snd).sum / pts.length)) =
      ((pts.length : ℚ) * (pts.map (fun p => p.1 * p.2)).sum -
        (pts.map Prod.fst).sum * (pts.map Prod.snd).sum) / pts.length := by
    field_simp
    ring
  have hD : (pts.map (fun p => p.1 ^ 2)).sum -
      2 * ((pts.map Prod.fst).sum / pts.length) * (pts.map Prod.fst).sum +
      pts.length * ((pts.map Prod.fst).sum / pts.length) ^ 2 =
      ((pts.length : ℚ) * (pts.map (fun p => p.1 ^ 2)).sum -
        ((pts.map Prod.fst).sum) ^ 2) / pts.length := by
    field_simp
    ring
  rw [hN, hD, div_div_div_cancel_right₀]
  exact hnQ

/-- Rounding at an exact integer returns the integer. -/
theorem rne_intCast (m : ℤ) : rne (m : ℚ) = m := by
  unfold rne
  rw [Int.floor_intCast]
  norm_num

/-- A rational that is a whole number of thousandths is a fixed point of
`round3`. -/
theorem round3_eq_self_of_int (q : ℚ) (m : ℤ) (h : q * 1000 = (m : ℚ)) :
    round3 q = q := by
  unfold round3
  rw [h, rne_intCast, ← h]
  field_simp

/-- C1: for every stint that `get_live_tyre_degradation` reports: every
kept lap comes from a non-pit-out source lap and carries the fuel-corrected
time `round3 (raw - 0.03 * (totalLaps - lap))` — exactly
`raw - 0.03 * (totalLaps - lap)` whenever the raw time is a whole number of
milliseconds; at least 2 laps are kept (the fallback to the unfiltered
clean set); the kept set either lies within 110% of the clean-lap median or
is the whole clean set; with fewer than 3 kept points, or all points on one
lap number, the stint reports no regression (`deg_rate = none`, empty trend
line); with at least 3 points on at least two distinct lap numbers,
`deg_rate` is the ordinary-least-squares slope (rounded to 4 decimals) and
the trend line is exactly two points at the first and last kept lap. -/
theorem tyre_degradation_stint_spec (total_laps : ℤ) (laps : List LapRec)
    (stint : StintR) (r : StintResult)
    (h : processStint total_laps laps stint = some r) :
    (∀ d ∈ r.laps, ∃ l, l ∈ laps ∧ l.is_pit_out = false ∧
      d.lap = l.lap ∧
      d.corrected_time =
        round3 (l.time - 3 / 100 * ((total_laps : ℚ) - (l.lap : ℚ))) ∧
      (∀ m : ℤ, l.time * 1000 = (m : ℚ) →
        d.corrected_time =
          l.time - 3 / 100 * ((total_laps : ℚ) - (l.lap : ℚ)))) ∧
    2 ≤ r.laps.length ∧
    ((∀ d ∈ r.laps, ∃ l ∈ cleanLapsOf total_laps laps stint,
        d = mkDegLap total_laps l ∧
        l.time ≤ medianOf (cleanLapsOf total_laps laps stint) * (11 / 10)) ∨
      r.laps = (cleanLapsOf total_laps laps stint).map
        (mkDegLap total_laps)) ∧
    (r.laps.length < 3 → r.deg_rate = none ∧ r.trend_line = []) ∧
    ((∀ d1 ∈ r.laps, ∀ d2 ∈ r.laps, d1.lap = d2.lap) →
      r.deg_rate = none ∧ r.trend_line = []) ∧
    (3 ≤ r.laps.length →
      (∃ d1 ∈ r.laps, ∃ d2 ∈ r.laps, d1.lap ≠ d2.lap) →
      ∃ slope intercept,
        _linear_regression (r.laps.map
          (fun d => ((d.lap : ℚ), d.corrected_time))) =
            some (slope, intercept) ∧
        slope = olsSlope (r.laps.map
          (fun d => ((d.lap : ℚ), d.corrected_time))) ∧
        r.deg_rate = some (round4 slope) ∧
        r.trend_line =
          [⟨(r.laps.headD ⟨0, 0, 0⟩).lap,
              round3 (slope * ((r.laps.headD ⟨0, 0, 0⟩).lap : ℚ) +
                intercept)⟩,
            ⟨(r.laps.getLastD ⟨0, 0, 0⟩).lap,
              round3 (slope * ((r.laps.getLastD ⟨0, 0, 0⟩).lap : ℚ) +
                intercept)⟩]) := by
  unfold processStint at h
  by_cases hsl : stintLapsOf total_laps laps stint = []
  · rw [if_pos hsl] at h
    exact absurd h (by simp)
  rw [if_neg hsl] at h
  by_cases hcl : ((stintLapsOf total_laps laps stint).filter
      (fun l => !l.is_pit_out)).length < 2
  · rw [if_pos hcl] at h
    exact absurd h (by simp)
  rw [if_neg hcl] at h
  simp only [] at h
  have hcleq : cleanLapsOf total_laps laps stint =
      (stintLapsOf total_laps laps stint).filter (fun l => !l.is_pit_out) :=
    rfl
  -- generic facts about the kept laps
  have hsub : ∀ l ∈ filteredOf ((stintLapsOf total_laps laps stint).filter
      (fun l => !l.is_pit_out)),
      l ∈ (stintLapsOf total_laps laps stint).filter
        (fun l => !l.is_pit_out) := by
    intro l hl
    simp only [filteredOf] at hl
    by_cases hf : (((stintLapsOf total_laps laps stint).filter
        (fun l => !l.is_pit_out)).filter
          (fun l => decide (l.time ≤ medianOf
            ((stintLapsOf total_laps laps stint).filter
              (fun l => !l.is_pit_out)) * (11 / 10)))).length < 2
    · rw [if_pos hf] at hl
      exact hl
    · rw [if_neg hf] at hl
      exact (List.mem_filter.mp hl).1
  have hmem : ∀ d ∈ (filteredOf ((stintLapsOf total_laps laps stint).filter
      (fun l => !l.is_pit_out))).map (mkDegLap total_laps),
      ∃ l, l ∈ laps ∧ l.is_pit_out = false ∧ d = mkDegLap total_laps l := by
    intro d hd
    obtain ⟨l, hl, rfl⟩ := List.mem_map.mp hd
    have hlc := hsub l hl
    have h1 := List.mem_filter.mp hlc
    have h2 := List.mem_filter.mp h1.1
    refine ⟨l, h2.1, ?_, rfl⟩
    have := h1.2
    simp at this
    exact this
  have hlen2 : 2 ≤ (filteredOf ((stintLapsOf total_laps laps stint).filter
      (fun l => !l.is_pit_out))).length := by
    simp only [filteredOf]
    by_cases hf : (((stintLapsOf total_laps laps stint).filter
        (fun l => !l.is_pit_out)).filter
          (fun l => decide (l.time ≤ medianOf
            ((stintLapsOf total_laps laps stint).filter
              (fun l => !l.is_pit_out)) * (11 / 10)))).length < 2
    · rw [if_pos hf]
      omega
    · rw [if_neg hf]
      omega
  have houtlier : (∀ d ∈ (filteredOf ((stintLapsOf total_laps laps
      stint).filter (fun l => !l.is_pit_out))).map (mkDegLap total_laps),
      ∃ l ∈ cleanLapsOf total_laps laps stint,
        d = mkDegLap total_laps l ∧
        l.time ≤ medianOf (cleanLapsOf total_laps laps stint) * (11 / 10)) ∨
      (filteredOf ((stintLapsOf total_laps laps stint).filter
        (fun l => !l.is_pit_out))).map (mkDegLap total_laps) =
      (cleanLapsOf total_laps laps stint).map (mkDegLap total_laps) := by
    simp only [filteredOf]
    by_cases hf : (((stintLapsOf total_laps laps stint).filter
        (fun l => !l.is_pit_out)).filter
          (fun l => decide (l.time ≤ medianOf
            ((stintLapsOf total_laps laps stint).filter
              (fun l => !l.is_pit_out)) * (11 / 10)))).length < 2
    · rw [if_pos hf]
      exact Or.inr rfl
    · rw [if_neg hf]
      left
      intro d hd
      obtain ⟨l, hl, rfl⟩ := List.mem_map.mp hd
      have h1 := List.mem_filter.mp hl
      refine ⟨l, h1.1, rfl, ?_⟩
      have := h1.2
      simp at this
      exact this
  -- the corrected-time facts for one kept lap
  have hcorr : ∀ l : LapRec, (mkDegLap total_laps l).lap = l.lap ∧
      (mkDegLap total_laps l).corrected_time =
        round3 (l.time - 3 / 100 * ((total_laps : ℚ) - (l.lap : ℚ))) ∧
      (∀ m : ℤ, l.time * 1000 = (m : ℚ) →
        (mkDegLap total_laps l).corrected_time =
          l.time - 3 / 100 * ((total_laps : ℚ) - (l.lap : ℚ))) := by
    intro l
    refine ⟨rfl, rfl, ?_⟩
    intro m hm
    show round3 (l.time - 3 / 100 * ((total_laps : ℚ) - (l.lap : ℚ))) = _
    apply round3_eq_self_of_int _ (m - 30 * (total_laps - l.lap))
    push_cast
    linear_combination hm
  cases hreg : _linear_regression
      (((filteredOf ((stintLapsOf total_laps laps stint).filter
        (fun l => !l.is_pit_out))).map (mkDegLap total_laps)).map
          (fun d => ((d.lap : ℚ), d.corrected_time))) with
  | none =>
    rw [hreg] at h
    cases h
    refine ⟨?_, by simpa using hlen2, houtlier, fun _ => ⟨rfl, rfl⟩,
      fun _ => ⟨rfl, rfl⟩, ?_⟩
    · intro d hd
      obtain ⟨l, hll, hlp, rfl⟩ := hmem d hd
      exact ⟨l, hll, hlp, (hcorr l).1, (hcorr l).2.1, (hcorr l).2.2⟩
    · intro h3 ⟨d1, hd1, d2, hd2, hne⟩
      exfalso
      simp only [_linear_regression] at hreg
      rw [if_neg (by
        rw [List.length_map, List.length_map]
        rw [List.length_map] at h3
        omega)] at hreg
      by_cases hdz : ((((filteredOf ((stintLapsOf total_laps laps
          stint).filter (fun l => !l.is_pit_out))).map
            (mkDegLap total_laps)).map
              (fun d => ((d.lap : ℚ), d.corrected_time))).length : ℚ) *
          ((((filteredOf ((stintLapsOf total_laps laps stint).filter
            (fun l => !l.is_pit_out))).map (mkDegLap total_laps)).map
              (fun d => ((d.lap : ℚ), d.corrected_time))).map
                (fun p => p.1 ^ 2)).sum -
          (((((filteredOf ((stintLapsOf total_laps laps stint).filter
            (fun l => !l.is_pit_out))).map (mkDegLap total_laps)).map
              (fun d => ((d.lap : ℚ), d.corrected_time))).map
                Prod.fst).sum) ^ 2 = 0
      · exact absurd hdz (denom_ne_zero_of_two _
          ((d1.lap : ℚ), d1.corrected_time)
          ((d2.lap : ℚ), d2.corrected_time)
          (List.mem_map_of_mem _ hd1) (List.mem_map_of_mem _ hd2)
          (by
            intro hc
            exact hne (by simpa using hc)))
      · rw [if_neg hdz] at hreg
        exact absurd hreg (by simp)
  | some si =>
    cases si with
    | mk slope intercept =>
      rw [hreg] at h
      cases h
      have hn3 : ¬ (((filteredOf ((stintLapsOf total_laps laps
          stint).filter (fun l => !l.is_pit_out))).map
            (mkDegLap total_laps)).map
              (fun d => ((d.lap : ℚ), d.corrected_time))).length < 3 := by
        intro hlt
        simp only [_linear_regression] at hreg
        rw [if_pos hlt] at hreg
        exact absurd hreg (by simp)
      refine ⟨?_, by simpa using hlen2, houtlier, ?_, ?_, ?_⟩
      · intro d hd
        obtain ⟨l, hll, hlp, rfl⟩ := hmem d hd
        exact ⟨l, hll, hlp, (hcorr l).1, (hcorr l).2.1, (hcorr l).2.2⟩
      · intro hlt
        exfalso
        rw [List.length_map, List.length_map] at hn3
        rw [List.length_map] at hlt
        omega
      · intro hall
        exfalso
        have hne : (filteredOf ((stintLapsOf total_laps laps stint).filter
            (fun l => !l.is_pit_out))).map (mkDegLap total_laps) ≠ [] := by
          intro hnil
          have hc0 := congrArg List.length hnil
          rw [List.length_map] at hc0
          simp only [List.length_nil] at hc0
          omega
        have hdz := denom_eq_zero_of_const
          (((filteredOf ((stintLapsOf total_laps laps stint).filter
            (fun l => !l.is_pit_out))).map (mkDegLap total_laps)).map
              (fun d => ((d.lap : ℚ), d.corrected_time)))
          ((((filteredOf ((stintLapsOf total_laps laps stint).filter
            (fun l => !l.is_pit_out))).map
              (mkDegLap total_laps)).headD ⟨0, 0, 0⟩).lap : ℚ)
          (by
            intro p hp
            obtain ⟨d, hd, rfl⟩ := List.mem_map.mp hp
            have hhead : ((filteredOf ((stintLapsOf total_laps laps
                stint).filter (fun l => !l.is_pit_out))).map
                  (mkDegLap total_laps)).headD ⟨0, 0, 0⟩ ∈
                (filteredOf ((stintLapsOf total_laps laps stint).filter
                  (fun l => !l.is_pit_out))).map (mkDegLap total_laps) := by
              cases hls : (filteredOf ((stintLapsOf total_laps laps
                  stint).filter (fun l => !l.is_pit_out))).map
                    (mkDegLap total_laps) with
              | nil => exact absurd hls hne
              | cons x xs => simp [hls]
            exact congrArg (fun z : ℤ => (z : ℚ)) (hall d hd _ hhead))
        simp only [_linear_regression] at hreg
        rw [if_neg hn3, if_pos hdz] at hreg
        exact absurd hreg (by simp)
      · intro h3 ⟨d1, hd1, d2, hd2, hne⟩
        have hdz : ((((filteredOf ((stintLapsOf total_laps laps
            stint).filter (fun l => !l.is_pit_out))).map
              (mkDegLap total_laps)).map
                (fun d => ((d.lap : ℚ), d.corrected_time))).length : ℚ) *
            ((((filteredOf ((stintLapsOf total_laps laps stint).filter
              (fun l => !l.is_pit_out))).map (mkDegLap total_laps)).map
                (fun d => ((d.lap : ℚ), d.corrected_time))).map
                  (fun p => p.1 ^ 2)).sum -
            (((((filteredOf ((stintLapsOf total_laps laps stint).filter
              (fun l => !l.is_pit_out))).map (mkDegLap total_laps)).map
                (fun d => ((d.lap : ℚ), d.corrected_time))).map
                  Prod.fst).sum) ^ 2 ≠ 0 :=
          denom_ne_zero_of_two _
            ((d1.lap : ℚ), d1.corrected_time)
            ((d2.lap : ℚ), d2.corrected_time)
            (List.mem_map_of_mem _ hd1) (List.mem_map_of_mem _ hd2)
            (by
              intro hc
              exact hne (by simpa using hc))
        have hslope : slope =
            olsSlope (((filteredOf ((stintLapsOf total_laps laps
              stint).filter (fun l => !l.is_pit_out))).map
                (mkDegLap total_laps)).map
                  (fun d => ((d.lap : ℚ), d.corrected_time))) := by
          simp only [_linear_regression] at hreg
          rw [if_neg hn3, if_neg hdz] at hreg
          have hinj := Option.some.inj hreg
          have hs := congrArg Prod.fst hinj
          simp only at hs
          rw [← hs]
          exact code_slope_eq_ols _ (by
            intro hz
            rw [hz] at hn3
            exact hn3 (by norm_num)) hdz
        exact ⟨slope, intercept, hreg, hslope, rfl, rfl⟩

unseal Rat.add Rat.mul Rat.inv Rat.sub List.mergeSort List.merge Nat.gcd in
/-- Witness for `tyre_degradation_stint_spec` at the specification's
synthetic stint: laps (1, 90.0), (2, 90.3), (3, 90.6), (4, 90.9) over a
4-lap race, yielding a positive degradation slope of 0.33 s/lap. -/
theorem tyre_degradation_witness :
    processStint 4
        [⟨1, 90, false⟩, ⟨2, 903 / 10, false⟩, ⟨3, 906 / 10, false⟩,
          ⟨4, 909 / 10, false⟩] ⟨"SOFT", 1, none, 1⟩ =
      some ⟨"SOFT", 1, some (33 / 100),
        [⟨1, 90, 8991 / 100⟩, ⟨2, 903 / 10, 2256 / 25⟩,
          ⟨3, 906 / 10, 9057 / 100⟩, ⟨4, 909 / 10, 909 / 10⟩],
        [⟨1, 8991 / 100⟩, ⟨4, 909 / 10⟩]⟩ ∧
    (2 ≤ (StintResult.mk "SOFT" 1 (some (33 / 100))
        [⟨1, 90, 8991 / 100⟩, ⟨2, 903 / 10, 2256 / 25⟩,
          ⟨3, 906 / 10, 9057 / 100⟩, ⟨4, 909 / 10, 909 / 10⟩]
        [⟨1, 8991 / 100⟩, ⟨4, 909 / 10⟩]).laps.length) :=
  ⟨by decide,
   (tyre_degradation_stint_spec 4
      [⟨1, 90, false⟩, ⟨2, 903 / 10, false⟩, ⟨3, 906 / 10, false⟩,
        ⟨4, 909 / 10, false⟩] ⟨"SOFT", 1, none, 1⟩
      ⟨"SOFT", 1, some (33 / 100),
        [⟨1, 90, 8991 / 100⟩, ⟨2, 903 / 10, 2256 / 25⟩,
          ⟨3, 906 / 10, 9057 / 100⟩, ⟨4, 909 / 10, 909 / 10⟩],
        [⟨1, 8991 / 100⟩, ⟨4, 909 / 10⟩]⟩ (by decide)).2.1⟩

end F1Data
